import Mathlib

/-!
# Verification of the Potongin transcript/clip backend core

Shallow embedding of `src/main.py` (and the `Clip` schema from
`src/schemas.py`).  Strings are modelled as `List Char`, Python floats as
`ℚ` (all claims are about exact structural arithmetic, none about
rounding), Python `None`/absent fields as `Option`, and raised
`HTTPException`s as the `.error` branch of `Except`.
-/

namespace Potongin

/-! ## VideoIdExtractor (`extract_youtube_id`, main.py lines 21-26)

The regex `(?:v=|be/|embed/)([A-Za-z0-9_-]{11})` with `re.search`:
leftmost position at which one of the three markers is immediately
followed by at least 11 characters of the id class; the captured group is
those 11 characters.  The three markers start with distinct characters,
so at a fixed position at most one alternative can match. -/

/-- Character class `[A-Za-z0-9_-]` of the id regex. -/
def isIdChar (c : Char) : Bool :=
  (('A' ≤ c && c ≤ 'Z') || ('a' ≤ c && c ≤ 'z') || ('0' ≤ c && c ≤ '9')
    || c == '_' || c == '-')

/-- Try the alternation `(?:v=|be/|embed/)` at the head of `l`; on success
return the remainder after the marker. -/
def matchMarker (l : List Char) : Option (List Char) :=
  if ['v', '='].isPrefixOf l then some (l.drop 2)
  else if ['b', 'e', '/'].isPrefixOf l then some (l.drop 3)
  else if ['e', 'm', 'b', 'e', 'd', '/'].isPrefixOf l then some (l.drop 6)
  else none

/-- Try the whole pattern at the head of `l`: a marker immediately followed
by (at least) 11 characters of the class; the value is those 11. -/
def tryHere (l : List Char) : Option (List Char) :=
  match matchMarker l with
  | none => none
  | some rest =>
    let run := rest.take 11
    if run.length == 11 && run.all isIdChar then some run else none

/-- `re.search` semantics: scan left to right, first position where the
pattern matches wins.  Embeds `extract_youtube_id` (main.py 24-26), which
returns the capture group or `None`. -/
def extract_youtube_id : List Char → Option (List Char)
  | [] => none
  | c :: rest =>
    match tryHere (c :: rest) with
    | some r => some r
    | none => extract_youtube_id rest

/-- Spec-side description of the id pattern (spec §4.1): one of the
markers `v=`, `be/`, `embed/` at the head of `l`, immediately followed by
11 characters drawn from the id class, `r` being those 11 characters. -/
def MatchesPattern (l r : List Char) : Prop :=
  ((['v', '='] <+: l ∧ r = (l.drop 2).take 11) ∨
   (['b', 'e', '/'] <+: l ∧ r = (l.drop 3).take 11) ∨
   (['e', 'm', 'b', 'e', 'd', '/'] <+: l ∧ r = (l.drop 6).take 11))
  ∧ r.length = 11 ∧ r.all isIdChar = true

instance (l r : List Char) : Decidable (MatchesPattern l r) := by
  unfold MatchesPattern; infer_instance

/-- A marker at the head of `l` immediately followed by MORE than 11
(at least 12) consecutive id-class characters. -/
def LongRunAt (l : List Char) : Prop :=
  (['v', '='] <+: l ∧ ((l.drop 2).take 12).length = 12
      ∧ ((l.drop 2).take 12).all isIdChar = true) ∨
  (['b', 'e', '/'] <+: l ∧ ((l.drop 3).take 12).length = 12
      ∧ ((l.drop 3).take 12).all isIdChar = true) ∨
  (['e', 'm', 'b', 'e', 'd', '/'] <+: l ∧ ((l.drop 6).take 12).length = 12
      ∧ ((l.drop 6).take 12).all isIdChar = true)

instance (l : List Char) : Decidable (LongRunAt l) := by
  unfold LongRunAt; infer_instance

/-! ## TranscriptSelector (main.py lines 93-117)

A `TranscriptTrack` of the provider is a language code plus a
manual/auto-generated flag.  The provider library's
`find_manually_created_transcript([l])` returns the first manually
created track with code `l` (else raises), and `find_transcript([l])`
looks for code `l` first among manually created then among generated
tracks.  With several codes, `find_transcript(codes)` tries the codes in
order.  Iteration over a transcript list yields the manually created
tracks first, then the generated ones.  Raised lookup failures are the
`none` branch here (the Python code catches them). -/

structure Track where
  languageCode : String
  isGenerated : Bool
  deriving DecidableEq, Repr

/-- `find_manually_created_transcript([lang])`: first manual track with
this code, else failure (`none`). -/
def findManuallyCreated (lang : String) (ts : List Track) : Option Track :=
  ts.find? fun t => !t.isGenerated && t.languageCode == lang

/-- First auto-generated track with this code. -/
def findGenerated (lang : String) (ts : List Track) : Option Track :=
  ts.find? fun t => t.isGenerated && t.languageCode == lang

/-- `find_transcript([lang])`: manual tracks are searched before generated
ones. -/
def findTranscript (lang : String) (ts : List Track) : Option Track :=
  match findManuallyCreated lang ts with
  | some t => some t
  | none => findGenerated lang ts

/-- `find_transcript(codes)` with several codes: try each code in order. -/
def findTranscriptMulti (langs : List String) (ts : List Track) : Option Track :=
  match langs with
  | [] => none
  | l :: rest =>
    match findTranscript l ts with
    | some t => some t
    | none => findTranscriptMulti rest ts

/-- Iteration order of a provider transcript list: manually created
tracks first, then generated ones. -/
def iterationOrder (ts : List Track) : List Track :=
  ts.filter (fun t => !t.isGenerated) ++ ts.filter (fun t => t.isGenerated)

/-- The `for code in preferred` loop (main.py 105-114): for each code try
the manual lookup, then the any lookup; first success breaks the loop. -/
def preferredLoop (codes : List String) (ts : List Track) : Option Track :=
  match codes with
  | [] => none
  | c :: rest =>
    match findManuallyCreated c ts with
    | some t => some t
    | none =>
      match findTranscript c ts with
      | some t => some t
      | none => preferredLoop rest ts

/-- The `transcript` variable after the `if payload.language` block
(main.py 94-101): manual lookup in the requested language, then any
lookup, else `None` (also `None` when no language was requested). -/
def requestedLookup (requested : Option String) (ts : List Track) : Option Track :=
  match requested with
  | some l =>
    match findManuallyCreated l ts with
    | some t => some t
    | none => findTranscript l ts
  | none => none

/-- Transcript selection, main.py lines 93-117: requested language
(manual, then any), else the preference loop over `["id", "en"]`, else
`find_transcript([t.language_code for t in transcript_list])`.  The
result is `none` exactly when even that last lookup raises
`NoTranscriptFound` (caught by the 404 handler). -/
def selectTranscript (requested : Option String) (ts : List Track) : Option Track :=
  match requestedLookup requested ts with
  | some t => some t
  | none =>
    match preferredLoop ["id", "en"] ts with
    | some t => some t
    | none => findTranscriptMulti ((iterationOrder ts).map fun t => t.languageCode) ts

/-- Spec-side lookup (spec §4.2): "an auto-generated (or any) track in
that language" — the first track with the given code, manual or not. -/
def anyIn (lang : String) (ts : List Track) : Option Track :=
  ts.find? fun t => t.languageCode == lang

/-- First successful attempt of an ordered list of lookup attempts
(spec §9: "an explicit ordered list of attempts"). -/
def firstSome : List (Option Track) → Option Track
  | [] => none
  | some t :: _ => some t
  | none :: rest => firstSome rest

/-! ## TranscriptNormalizer (main.py lines 119-125)

A raw cue is a provider dict; `item.get(key, default)` is modelled by
`Option` fields with `getD`.  Python's `str.replace("\n", " ")` replaces
every newline by one space; `str.strip()` removes leading and trailing
whitespace. -/

structure RawCue where
  start? : Option ℚ := none
  duration? : Option ℚ := none
  text? : Option (List Char) := none
  deriving DecidableEq, Repr

/-- Python whitespace for `str.strip` (the ASCII whitespace characters;
only these occur in transcript text). -/
def pyIsSpace (c : Char) : Bool :=
  c == ' ' || c == '\t' || c == '\n' || c == '\x0d' || c == '\x0b' || c == '\x0c'

/-- `str.strip()`: drop whitespace from both ends. -/
def pyStrip (l : List Char) : List Char :=
  ((l.dropWhile pyIsSpace).reverse.dropWhile pyIsSpace).reverse

/-- `text.replace("\n", " ").strip()` (main.py 124). -/
def cleanText (l : List Char) : List Char :=
  pyStrip (l.map fun c => if c == '\n' then ' ' else c)

structure TranscriptSegmentOut where
  start : ℚ
  stop : ℚ
  text : List Char
  index : Nat
  deriving DecidableEq, Repr

/-- One loop iteration of main.py 120-125 at enumeration index `i`
(`stop` embeds the Python field `end`, a Lean keyword). -/
def normalizeCue (i : Nat) (c : RawCue) : TranscriptSegmentOut :=
  let start := c.start?.getD 0
  let dur := c.duration?.getD 0
  { start := start, stop := start + dur, text := cleanText (c.text?.getD []),
    index := i }

/-- The `for i, item in enumerate(raw)` loop, starting at index `i`. -/
def normalizeFrom (i : Nat) : List RawCue → List TranscriptSegmentOut
  | [] => []
  | c :: rest => normalizeCue i c :: normalizeFrom (i + 1) rest

/-- Normalization of a whole cue list (enumerate starts at 0). -/
def normalize (cues : List RawCue) : List TranscriptSegmentOut :=
  normalizeFrom 0 cues

/-! ## Clip creation (`create_clip`, main.py lines 133-148)

`HTTPException(status_code, detail)` becomes an error value; the Mongo
store becomes an explicit list of persisted clips, `create_document`
appends and returns the new index as the generated id. -/

structure HttpError where
  status : Nat
  detail : List Char
  deriving DecidableEq, Repr

structure CreateClipRequest where
  video_id : List Char
  start : ℚ
  stop : ℚ
  title : Option (List Char) := none
  transcript_snippet : Option (List Char) := none
  user_id : Option (List Char) := none
  deriving DecidableEq, Repr

/-- Persisted `Clip` record (schemas.py lines 34-42; `stop` embeds the
field `end`). -/
structure Clip where
  video_id : List Char
  user_id : Option (List Char)
  start : ℚ
  stop : ℚ
  title : Option (List Char)
  transcript_snippet : Option (List Char)
  export_status : List Char
  share_url : Option (List Char)
  deriving DecidableEq, Repr

/-- Python `int()` on a float/rational: truncation toward zero. -/
def pyTrunc (q : ℚ) : Int := q.num.tdiv (q.den : Int)

/-- `f"https://youtu.be/{req.video_id}?t={int(req.start)}"` (main.py 145). -/
def shareUrl (video_id : List Char) (start : ℚ) : List Char :=
  "https://youtu.be/".toList ++ video_id ++ "?t=".toList
    ++ (toString (pyTrunc start)).toList

structure CreateClipResponse where
  id : Nat
  share_url : List Char
  deriving DecidableEq, Repr

/-- `create_clip` (main.py 133-148): reject when `end <= start`, else
build the clip with `export_status="ready"` and the share deep link,
persist it, and answer with the generated id and share url.  The pair
also returns the store after the call. -/
def create_clip (req : CreateClipRequest) (store : List Clip) :
    Except HttpError CreateClipResponse × List Clip :=
  if req.stop ≤ req.start then
    (.error ⟨400, "Rentang waktu tidak valid.".toList⟩, store)
  else
    let clip : Clip :=
      { video_id := req.video_id
        user_id := req.user_id
        start := req.start
        stop := req.stop
        title := req.title
        transcript_snippet := req.transcript_snippet
        export_status := "ready".toList
        share_url := some (shareUrl req.video_id req.start) }
    (.ok ⟨store.length, shareUrl req.video_id req.start⟩, store ++ [clip])

/-! ## TranscriptService (`fetch_transcript`, main.py lines 84-130)

The provider is external; one call to it is one `ProviderOutcome`:
`list_transcripts` either raises `TranscriptsDisabled` /
`NoTranscriptFound`, raises some other exception with a message, or
returns the available tracks together with the cue list (or failure
message) each track's `fetch()` would produce. -/

inductive ProviderOutcome where
  | disabled
  | notFound
  | failure (msg : List Char)
  | available (ts : List Track) (fetchCues : Track → Except (List Char) (List RawCue))

structure FetchRequest where
  url : List Char
  language : Option String := none

structure FetchResponse where
  video_id : List Char
  segments : List TranscriptSegmentOut
  deriving DecidableEq, Repr

def invalidUrlDetail : List Char := "URL YouTube tidak valid.".toList

def noTranscriptDetail : List Char :=
  "Transkrip tidak tersedia untuk video ini.".toList

/-- `f"Gagal mengambil transkrip: {str(e)[:120]}"` (main.py 130). -/
def providerErrorDetail (msg : List Char) : List Char :=
  "Gagal mengambil transkrip: ".toList ++ msg.take 120

/-- The fetch use case (main.py 84-130) against one provider outcome.
Selection yielding no track means the final `find_transcript` call raised
`NoTranscriptFound`, caught by the 404 handler; any other exception is
caught by the 500 handler with a truncated message. -/
def fetch_transcript (payload : FetchRequest) (oc : ProviderOutcome) :
    Except HttpError FetchResponse :=
  match extract_youtube_id payload.url with
  | none => .error ⟨400, invalidUrlDetail⟩
  | some vid =>
    match oc with
    | .disabled => .error ⟨404, noTranscriptDetail⟩
    | .notFound => .error ⟨404, noTranscriptDetail⟩
    | .failure msg => .error ⟨500, providerErrorDetail msg⟩
    | .available ts fetchCues =>
      match selectTranscript payload.language ts with
      | none => .error ⟨404, noTranscriptDetail⟩
      | some tr =>
        match fetchCues tr with
        | .error msg => .error ⟨500, providerErrorDetail msg⟩
        | .ok raw => .ok ⟨vid, normalize raw⟩

/-- HTTP status of a fetch result, `none` on success. -/
def statusOf : Except HttpError FetchResponse → Option Nat
  | .error e => some e.status
  | .ok _ => none

/-! ## Extractor lemmas -/

lemma isPrefixOf_iff (l₁ l₂ : List Char) : l₁.isPrefixOf l₂ = true ↔ l₁ <+: l₂ :=
  List.isPrefixOf_iff_prefix

lemma matchMarker_eq_some_iff (l rest : List Char) :
    matchMarker l = some rest ↔
      (['v', '='] <+: l ∧ rest = l.drop 2) ∨
      (['b', 'e', '/'] <+: l ∧ rest = l.drop 3) ∨
      (['e', 'm', 'b', 'e', 'd', '/'] <+: l ∧ rest = l.drop 6) := by
  unfold matchMarker
  split_ifs with h1 h2 h3
  · obtain ⟨t, rfl⟩ := (isPrefixOf_iff _ _).mp h1
    simp [List.cons_prefix_cons, eq_comm]
  · obtain ⟨t, rfl⟩ := (isPrefixOf_iff _ _).mp h2
    simp [List.cons_prefix_cons, eq_comm]
  · obtain ⟨t, rfl⟩ := (isPrefixOf_iff _ _).mp h3
    simp [List.cons_prefix_cons, eq_comm]
  · rw [isPrefixOf_iff] at h1 h2 h3
    simp [h1, h2, h3]

lemma matchesPattern_iff (l r : List Char) :
    MatchesPattern l r ↔
      ∃ rest, matchMarker l = some rest ∧ r = rest.take 11 ∧
        r.length = 11 ∧ r.all isIdChar = true := by
  unfold MatchesPattern
  constructor
  · rintro ⟨(⟨h, rfl⟩ | ⟨h, rfl⟩ | ⟨h, rfl⟩), hlen, hall⟩
    · exact ⟨l.drop 2, (matchMarker_eq_some_iff _ _).mpr (Or.inl ⟨h, rfl⟩), rfl, hlen, hall⟩
    · exact ⟨l.drop 3, (matchMarker_eq_some_iff _ _).mpr (Or.inr (Or.inl ⟨h, rfl⟩)), rfl, hlen, hall⟩
    · exact ⟨l.drop 6, (matchMarker_eq_some_iff _ _).mpr (Or.inr (Or.inr ⟨h, rfl⟩)), rfl, hlen, hall⟩
  · rintro ⟨rest, hm, rfl, hlen, hall⟩
    rcases (matchMarker_eq_some_iff _ _).mp hm with ⟨h, rfl⟩ | ⟨h, rfl⟩ | ⟨h, rfl⟩
    · exact ⟨Or.inl ⟨h, rfl⟩, hlen, hall⟩
    · exact ⟨Or.inr (Or.inl ⟨h, rfl⟩), hlen, hall⟩
    · exact ⟨Or.inr (Or.inr ⟨h, rfl⟩), hlen, hall⟩

lemma tryHere_eq_some_iff (l r : List Char) :
    tryHere l = some r ↔ MatchesPattern l r := by
  rw [matchesPattern_iff]
  unfold tryHere
  rcases hm : matchMarker l with _ | rest
  · simp only [reduceCtorEq, false_and, exists_false, iff_false]
  · simp only [Option.some_inj, exists_eq_left']
    split_ifs with hc
    · simp only [Bool.and_eq_true, beq_iff_eq] at hc
      simp only [Option.some_inj]
      constructor
      · rintro rfl
        exact ⟨rfl, hc.1, hc.2⟩
      · rintro ⟨h, -, -⟩
        exact h.symm
    · simp only [Bool.and_eq_true, beq_iff_eq] at hc
      simp only [false_iff, reduceCtorEq]
      rintro ⟨rfl, hlen, hall⟩
      exact hc ⟨hlen, hall⟩

lemma tryHere_eq_none_iff (l : List Char) :
    tryHere l = none ↔ ∀ r, ¬ MatchesPattern l r := by
  constructor
  · intro h r hr
    rw [← tryHere_eq_some_iff] at hr
    rw [h] at hr
    exact absurd hr (by simp)
  · intro h
    rcases hr : tryHere l with _ | r
    · rfl
    · exact absurd ((tryHere_eq_some_iff l r).mp hr) (h r)

lemma extract_cons_of_none {c : Char} {rest : List Char}
    (ht : tryHere (c :: rest) = none) :
    extract_youtube_id (c :: rest) = extract_youtube_id rest := by
  conv_lhs => rw [extract_youtube_id]
  rw [ht]

lemma extract_cons_of_some {c : Char} {rest r : List Char}
    (ht : tryHere (c :: rest) = some r) :
    extract_youtube_id (c :: rest) = some r := by
  conv_lhs => rw [extract_youtube_id]
  rw [ht]

lemma extract_eq_none_iff (s : List Char) :
    extract_youtube_id s = none ↔ ∀ p, tryHere (s.drop p) = none := by
  induction s with
  | nil =>
    constructor
    · intro _ p
      rw [List.drop_nil]
      decide
    · intro _
      rfl
  | cons c rest ih =>
    rcases ht : tryHere (c :: rest) with _ | r
    · rw [extract_cons_of_none ht, ih]
      constructor
      · intro h p
        cases p with
        | zero => simpa using ht
        | succ p =>
          rw [List.drop_succ_cons]
          exact h p
      · intro h p
        have hp := h (p + 1)
        rwa [List.drop_succ_cons] at hp
    · rw [extract_cons_of_some ht]
      simp only [reduceCtorEq, false_iff, not_forall]
      refine ⟨0, ?_⟩
      rw [List.drop_zero, ht]
      simp

lemma extract_eq_some_iff (s r : List Char) :
    extract_youtube_id s = some r ↔
      ∃ p, tryHere (s.drop p) = some r ∧ ∀ q < p, tryHere (s.drop q) = none := by
  induction s with
  | nil =>
    constructor
    · intro h
      exact absurd h (by simp [extract_youtube_id])
    · rintro ⟨p, hp, -⟩
      rw [List.drop_nil, show tryHere ([] : List Char) = none from by decide] at hp
      exact absurd hp (by simp)
  | cons c rest ih =>
    rcases ht : tryHere (c :: rest) with _ | r₀
    · rw [extract_cons_of_none ht, ih]
      constructor
      · rintro ⟨p, hp, hmin⟩
        refine ⟨p + 1, by rwa [List.drop_succ_cons], ?_⟩
        intro q hq
        cases q with
        | zero => simpa using ht
        | succ q =>
          rw [List.drop_succ_cons]
          exact hmin q (by omega)
      · rintro ⟨p, hp, hmin⟩
        cases p with
        | zero =>
          rw [List.drop_zero] at hp
          rw [ht] at hp
          exact absurd hp (by simp)
        | succ p =>
          rw [List.drop_succ_cons] at hp
          refine ⟨p, hp, ?_⟩
          intro q hq
          have hq1 := hmin (q + 1) (by omega)
          rwa [List.drop_succ_cons] at hq1
    · rw [extract_cons_of_some ht]
      constructor
      · intro h
        rw [Option.some_inj] at h
        subst h
        exact ⟨0, by rwa [List.drop_zero], by omega⟩
      · rintro ⟨p, hp, hmin⟩
        cases p with
        | zero =>
          rw [List.drop_zero, ht] at hp
          exact hp
        | succ p =>
          have h0 := hmin 0 (by omega)
          rw [List.drop_zero, ht] at h0
          exact absurd h0 (by simp)

/-- C3: `extract_youtube_id` returns the 11-character id-class run that
follows the leftmost occurrence of the pattern (marker `v=`, `be/` or
`embed/` immediately followed by 11 characters from `[A-Za-z0-9_-]`),
returns `none` (no exception) exactly when no position matches, and in
particular maps `"https://youtu.be/dQw4w9WgXcQ"` to `"dQw4w9WgXcQ"` and
`"not a url"` to `none`. -/
theorem extractor_returns_first_pattern_match :
    (∀ s r, extract_youtube_id s = some r ↔
      ∃ p, MatchesPattern (s.drop p) r ∧
        ∀ q < p, ∀ r', ¬ MatchesPattern (s.drop q) r') ∧
    (∀ s, extract_youtube_id s = none ↔ ∀ p r, ¬ MatchesPattern (s.drop p) r) ∧
    extract_youtube_id "https://youtu.be/dQw4w9WgXcQ".toList
      = some "dQw4w9WgXcQ".toList ∧
    extract_youtube_id "not a url".toList = none := by
  refine ⟨?_, ?_, by decide, by decide⟩
  · intro s r
    rw [extract_eq_some_iff]
    constructor
    · rintro ⟨p, hp, hmin⟩
      exact ⟨p, (tryHere_eq_some_iff _ _).mp hp,
        fun q hq r' => (tryHere_eq_none_iff _).mp (hmin q hq) r'⟩
    · rintro ⟨p, hp, hmin⟩
      exact ⟨p, (tryHere_eq_some_iff _ _).mpr hp,
        fun q hq => (tryHere_eq_none_iff _).mpr (hmin q hq)⟩
  · intro s
    rw [extract_eq_none_iff]
    constructor
    · intro h p r
      exact (tryHere_eq_none_iff _).mp (h p) r
    · intro h p
      exact (tryHere_eq_none_iff _).mpr (h p)

/-- C9: no delimiter is required after the id: if a marker is immediately
followed by at least 12 consecutive id-class characters, the extractor
still succeeds with an 11-character id-class run rather than returning
`none`; in particular a 16-character tail after `v=` yields its first 11
characters. -/
theorem extractor_accepts_longer_runs :
    (∀ s p, LongRunAt (s.drop p) →
      ∃ r, extract_youtube_id s = some r ∧ r.length = 11 ∧ r.all isIdChar = true) ∧
    extract_youtube_id "https://www.youtube.com/watch?v=abcdefghijklmnop".toList
      = some "abcdefghijk".toList := by
  constructor
  · intro s p hlong
    have hmatch : ∃ r, MatchesPattern (s.drop p) r := by
      have take11 : ∀ l : List Char, (l.take 12).length = 12 →
          (l.take 12).all isIdChar = true →
          (l.take 11).length = 11 ∧ (l.take 11).all isIdChar = true := by
        intro l hlen hall
        have h11 : l.take 11 = (l.take 12).take 11 := by
          rw [List.take_take]; norm_num
        constructor
        · rw [List.length_take] at hlen ⊢
          omega
        · rw [h11]
          exact List.all_eq_true.mpr fun x hx =>
            List.all_eq_true.mp hall x (List.take_subset _ _ hx)
      rcases hlong with ⟨hpre, hlen, hall⟩ | ⟨hpre, hlen, hall⟩ | ⟨hpre, hlen, hall⟩
      · exact ⟨_, Or.inl ⟨hpre, rfl⟩, (take11 _ hlen hall).1, (take11 _ hlen hall).2⟩
      · exact ⟨_, Or.inr (Or.inl ⟨hpre, rfl⟩), (take11 _ hlen hall).1, (take11 _ hlen hall).2⟩
      · exact ⟨_, Or.inr (Or.inr ⟨hpre, rfl⟩), (take11 _ hlen hall).1, (take11 _ hlen hall).2⟩
    rcases hmatch with ⟨r₀, hr₀⟩
    rcases hres : extract_youtube_id s with _ | r
    · exact absurd hr₀ ((extract_eq_none_iff s).mp hres |> fun h =>
        (tryHere_eq_none_iff _).mp (h p) r₀)
    · rcases (extract_eq_some_iff s r).mp hres with ⟨q, hq, -⟩
      rcases (tryHere_eq_some_iff _ _).mp hq with ⟨-, hlen, hall⟩
      exact ⟨r, rfl, hlen, hall⟩
  · decide

/-- Witness for the long-run theorem: a concrete URL whose `v=` marker is
followed by 12 id-class characters. -/
theorem extractor_accepts_longer_runs_witness :
    LongRunAt ("v=abcdefghijkl".toList.drop 0) ∧
      ∃ r, extract_youtube_id "v=abcdefghijkl".toList = some r ∧
        r.length = 11 ∧ r.all isIdChar = true :=
  ⟨by decide, extractor_accepts_longer_runs.1 "v=abcdefghijkl".toList 0 (by decide)⟩

/-! ## Normalizer lemmas -/

lemma normalizeFrom_length (cues : List RawCue) :
    ∀ j, (normalizeFrom j cues).length = cues.length := by
  induction cues with
  | nil => intro j; rfl
  | cons c rest ih =>
    intro j
    simp [normalizeFrom, ih (j + 1)]

lemma normalizeFrom_getElem? (cues : List RawCue) :
    ∀ j i, (normalizeFrom j cues)[i]? = cues[i]?.map (normalizeCue (j + i)) := by
  induction cues with
  | nil => intro j i; simp [normalizeFrom]
  | cons c rest ih =>
    intro j i
    cases i with
    | zero => simp [normalizeFrom]
    | succ i =>
      simp only [normalizeFrom, List.getElem?_cons_succ]
      rw [ih (j + 1) i]
      have harith : j + 1 + i = j + (i + 1) := by omega
      rw [harith]

lemma mem_normalizeFrom (cues : List RawCue) :
    ∀ j s, s ∈ normalizeFrom j cues → ∃ i c, c ∈ cues ∧ s = normalizeCue i c := by
  induction cues with
  | nil => intro j s h; exact absurd h (by simp [normalizeFrom])
  | cons c rest ih =>
    intro j s h
    rw [normalizeFrom, List.mem_cons] at h
    rcases h with rfl | h
    · exact ⟨j, c, List.mem_cons_self _ _, rfl⟩
    · obtain ⟨i, c', hc', rfl⟩ := ih (j + 1) s h
      exact ⟨i, c', List.mem_cons_of_mem _ hc', rfl⟩

lemma head?_dropWhile {p : Char → Bool} :
    ∀ (l : List Char) (c : Char), (l.dropWhile p).head? = some c → p c = false := by
  intro l
  induction l with
  | nil => intro c h; exact absurd h (by simp)
  | cons a l ih =>
    intro c h
    by_cases hpa : p a
    · rw [List.dropWhile_cons, if_pos hpa] at h
      exact ih c h
    · rw [List.dropWhile_cons, if_neg hpa] at h
      rw [List.head?_cons, Option.some_inj] at h
      subst h
      simpa using hpa

lemma getLast?_dropWhile {p : Char → Bool} :
    ∀ (l : List Char) (c : Char),
      (l.dropWhile p).getLast? = some c → l.getLast? = some c := by
  intro l
  induction l with
  | nil => intro c h; exact absurd h (by simp)
  | cons a l ih =>
    intro c h
    by_cases hpa : p a
    · rw [List.dropWhile_cons, if_pos hpa] at h
      have hl := ih c h
      rcases l with _ | ⟨b, l'⟩
      · exact absurd hl (by simp)
      · rw [List.getLast?_cons_cons]
        exact hl
    · rwa [List.dropWhile_cons, if_neg hpa] at h

lemma head?_pyStrip (l : List Char) (c : Char)
    (h : (pyStrip l).head? = some c) : pyIsSpace c = false := by
  unfold pyStrip at h
  rw [List.head?_reverse] at h
  have h2 := getLast?_dropWhile _ _ h
  rw [List.getLast?_reverse] at h2
  exact head?_dropWhile _ _ h2

lemma getLast?_pyStrip (l : List Char) (c : Char)
    (h : (pyStrip l).getLast? = some c) : pyIsSpace c = false := by
  unfold pyStrip at h
  rw [List.getLast?_reverse] at h
  exact head?_dropWhile _ _ h

lemma mem_pyStrip {l : List Char} {c : Char} (h : c ∈ pyStrip l) : c ∈ l := by
  unfold pyStrip at h
  rw [List.mem_reverse] at h
  have h2 := (List.dropWhile_sublist pyIsSpace).subset h
  rw [List.mem_reverse] at h2
  exact (List.dropWhile_sublist pyIsSpace).subset h2

/-- C2: normalization keeps every cue (no filtering), preserves length and
order, and the segment at position `i` carries `index = i`,
`start = cue.start` (default `0`), `end = start + cue.duration`
(default `0`), and the cue text (default `""`) with newlines replaced by
spaces and the ends trimmed. -/
theorem normalize_segmentwise :
    ∀ cues : List RawCue,
      (normalize cues).length = cues.length ∧
      ∀ (i : Nat) (c : RawCue), cues[i]? = some c →
        (normalize cues)[i]? = some
          ({ start := c.start?.getD 0
             stop := c.start?.getD 0 + c.duration?.getD 0
             text := pyStrip ((c.text?.getD []).map fun ch =>
               if ch == '\n' then ' ' else ch)
             index := i } : TranscriptSegmentOut) := by
  intro cues
  refine ⟨normalizeFrom_length cues 0, ?_⟩
  intro i c hc
  rw [normalize, normalizeFrom_getElem? cues 0 i, hc]
  simp [normalizeCue, cleanText]

/-- Witness for the normalization theorem on one concrete cue. -/
theorem normalize_segmentwise_witness :
    ([⟨some 1, some 2, some "a\nb ".toList⟩] : List RawCue)[0]?
        = some ⟨some 1, some 2, some "a\nb ".toList⟩ ∧
      (normalize [⟨some 1, some 2, some "a\nb ".toList⟩])[0]? = some
        { start := (1 : ℚ), stop := (1 : ℚ) + 2, text := "a b".toList, index := 0 } := by
  constructor
  · rfl
  · have h := (normalize_segmentwise [⟨some 1, some 2, some "a\nb ".toList⟩]).2 0
      ⟨some 1, some 2, some "a\nb ".toList⟩ rfl
    rw [h]
    rfl

/-- C7: a cue with nonnegative start and duration yields a segment with
`end ≥ start`, and the invariant holds for every segment of every
normalized cue list. -/
theorem segment_end_ge_start :
    ∀ cues : List RawCue,
      (∀ c ∈ cues, 0 ≤ c.start?.getD 0 ∧ 0 ≤ c.duration?.getD 0) →
      ∀ s ∈ normalize cues, s.start ≤ s.stop := by
  intro cues hc s hs
  obtain ⟨i, c, hmem, rfl⟩ := mem_normalizeFrom cues 0 s hs
  have hd := (hc c hmem).2
  simp only [normalizeCue]
  exact le_add_of_nonneg_right hd

/-- Witness for the `end ≥ start` theorem on a concrete cue list. -/
theorem segment_end_ge_start_witness :
    (∀ c ∈ ([⟨some 1, some 2, none⟩] : List RawCue),
        0 ≤ c.start?.getD 0 ∧ 0 ≤ c.duration?.getD 0) ∧
      ∀ s ∈ normalize [⟨some 1, some 2, none⟩], s.start ≤ s.stop := by
  have hc : ∀ c ∈ ([⟨some 1, some 2, none⟩] : List RawCue),
      0 ≤ c.start?.getD 0 ∧ 0 ≤ c.duration?.getD 0 := by
    intro c hc
    rw [List.mem_singleton] at hc
    subst hc
    norm_num
  exact ⟨hc, segment_end_ge_start [⟨some 1, some 2, none⟩] hc⟩

/-- C8: for any input cue, the normalized segment text contains no
newline and neither begins nor ends with whitespace. -/
theorem segment_text_clean :
    ∀ (c : RawCue) (i : Nat),
      '\n' ∉ (normalizeCue i c).text ∧
      (∀ ch, (normalizeCue i c).text.head? = some ch → pyIsSpace ch = false) ∧
      (∀ ch, (normalizeCue i c).text.getLast? = some ch → pyIsSpace ch = false) := by
  intro c i
  refine ⟨?_, fun ch h => head?_pyStrip _ _ h, fun ch h => getLast?_pyStrip _ _ h⟩
  intro hmem
  simp only [normalizeCue, cleanText] at hmem
  have h2 := mem_pyStrip hmem
  rw [List.mem_map] at h2
  obtain ⟨ch, -, hch⟩ := h2
  by_cases hc : ch == '\n'
  · rw [if_pos hc] at hch
    exact absurd hch (by decide)
  · rw [if_neg hc] at hch
    rw [hch] at hc
    simp at hc

/-- Witness for the clean-text theorem on a concrete cue. -/
theorem segment_text_clean_witness :
    '\n' ∉ (normalizeCue 0 ⟨none, none, some " x\ny ".toList⟩).text ∧
      (normalizeCue 0 ⟨none, none, some " x\ny ".toList⟩).text.head? = some 'x' ∧
      pyIsSpace 'x' = false :=
  ⟨(segment_text_clean ⟨none, none, some " x\ny ".toList⟩ 0).1, by decide,
    (segment_text_clean ⟨none, none, some " x\ny ".toList⟩ 0).2.1 'x' (by decide)⟩

/-! ## Selector lemmas -/

lemma findManuallyCreated_eq_none_of_anyIn {l : String} {ts : List Track}
    (h : anyIn l ts = none) : findManuallyCreated l ts = none := by
  rw [anyIn, List.find?_eq_none] at h
  rw [findManuallyCreated, List.find?_eq_none]
  intro t ht hp
  simp only [Bool.and_eq_true] at hp
  exact h t ht hp.2

lemma findGenerated_eq_anyIn :
    ∀ {ts : List Track} {l : String}, findManuallyCreated l ts = none →
      findGenerated l ts = anyIn l ts := by
  intro ts
  induction ts with
  | nil => intro l _; rfl
  | cons t ts ih =>
    intro l hm
    by_cases hl : t.languageCode == l
    · by_cases hg : t.isGenerated
      · rw [findGenerated, anyIn, List.find?_cons_of_pos, List.find?_cons_of_pos]
        · exact hl
        · simp [hg, hl]
      · rw [findManuallyCreated, List.find?_cons_of_pos] at hm
        · exact absurd hm (by simp)
        · simp [hg, hl]
    · have hm' : findManuallyCreated l ts = none := by
        rw [findManuallyCreated, List.find?_cons_of_neg] at hm
        · exact hm
        · simp [hl]
      rw [findGenerated, anyIn, List.find?_cons_of_neg, List.find?_cons_of_neg]
      · exact ih hm'
      · simp [hl]
      · simp [hl]

lemma findTranscript_eq_anyIn {l : String} {ts : List Track}
    (hm : findManuallyCreated l ts = none) : findTranscript l ts = anyIn l ts := by
  simp only [findTranscript, hm]
  exact findGenerated_eq_anyIn hm

lemma mem_iterationOrder {t : Track} {ts : List Track} (h : t ∈ ts) :
    t ∈ iterationOrder ts := by
  rw [iterationOrder, List.mem_append]
  by_cases hg : t.isGenerated
  · right
    rw [List.mem_filter]
    exact ⟨h, hg⟩
  · left
    rw [List.mem_filter]
    exact ⟨h, by simp [hg]⟩

lemma findTranscript_isSome_of_mem {t : Track} {ts : List Track} (h : t ∈ ts) :
    (findTranscript t.languageCode ts).isSome := by
  rcases hm : findManuallyCreated t.languageCode ts with _ | t'
  · simp only [findTranscript, hm]
    rw [findGenerated, List.find?_isSome]
    refine ⟨t, h, ?_⟩
    rw [findManuallyCreated, List.find?_eq_none] at hm
    have ht := hm t h
    simp only [Bool.and_eq_true, Bool.not_eq_eq_eq_not, Bool.not_true, beq_self_eq_true,
      and_true] at ht
    simp [ht]
  · simp only [findTranscript, hm, Option.isSome_some]

lemma findTranscriptMulti_isSome :
    ∀ (langs : List String) (ts : List Track),
      (∃ l ∈ langs, (findTranscript l ts).isSome) →
      (findTranscriptMulti langs ts).isSome := by
  intro langs
  induction langs with
  | nil =>
    rintro ts ⟨l, hl, -⟩
    exact absurd hl (List.not_mem_nil l)
  | cons a langs ih =>
    intro ts h
    rcases hf : findTranscript a ts with _ | t
    · simp only [findTranscriptMulti, hf]
      apply ih
      rcases h with ⟨l, hl, hsome⟩
      rcases List.mem_cons.mp hl with rfl | hl'
      · rw [hf] at hsome
        exact absurd hsome (by simp)
      · exact ⟨l, hl', hsome⟩
    · simp only [findTranscriptMulti, hf, Option.isSome_some]

lemma selectTranscript_nil (req : Option String) : selectTranscript req [] = none := by
  rcases req with _ | l <;> rfl

lemma selectTranscript_isSome_of_ne_nil {req : Option String} {ts : List Track}
    (h : ts ≠ []) : (selectTranscript req ts).isSome := by
  rcases h1 : requestedLookup req ts with _ | t
  · rcases h2 : preferredLoop ["id", "en"] ts with _ | t
    · simp only [selectTranscript, h1, h2]
      rcases ts with _ | ⟨t₀, ts'⟩
      · exact absurd rfl h
      · apply findTranscriptMulti_isSome
        refine ⟨t₀.languageCode, ?_, findTranscript_isSome_of_mem (List.mem_cons_self _ _)⟩
        exact List.mem_map_of_mem _ (mem_iterationOrder (List.mem_cons_self _ _))
    · simp only [selectTranscript, h1, h2, Option.isSome_some]
  · simp only [selectTranscript, h1, Option.isSome_some]

/-- C1: the selection precedence policy.  With a requested language, a
manual track in it wins, else any track in it; when the requested
language is absent entirely the selector falls through to the
no-language behaviour instead of failing; without a usable requested
language the fixed preference list `["id", "en"]` is tried in order,
manual before any, first match winning; and on
`requested="fr"`, `available = [manual "en", auto "id"]` the selector
returns the auto `"id"` track, not `"en"`. -/
theorem transcript_selection_policy :
    (∀ (l : String) (ts : List Track) (t : Track),
      findManuallyCreated l ts = some t → selectTranscript (some l) ts = some t) ∧
    (∀ (l : String) (ts : List Track) (t : Track),
      findManuallyCreated l ts = none → anyIn l ts = some t →
      selectTranscript (some l) ts = some t) ∧
    (∀ (l : String) (ts : List Track),
      anyIn l ts = none → selectTranscript (some l) ts = selectTranscript none ts) ∧
    (∀ (ts : List Track) (t : Track),
      firstSome [findManuallyCreated "id" ts, anyIn "id" ts,
        findManuallyCreated "en" ts, anyIn "en" ts] = some t →
      selectTranscript none ts = some t) ∧
    selectTranscript (some "fr") [⟨"en", false⟩, ⟨"id", true⟩] = some ⟨"id", true⟩ := by
  refine ⟨?_, ?_, ?_, ?_, by decide⟩
  · intro l ts t h
    simp only [selectTranscript, requestedLookup, h]
  · intro l ts t hm ha
    simp only [selectTranscript, requestedLookup, hm, findTranscript_eq_anyIn hm, ha]
  · intro l ts ha
    have hm := findManuallyCreated_eq_none_of_anyIn ha
    simp only [selectTranscript, requestedLookup, hm, findTranscript_eq_anyIn hm, ha]
  · intro ts t h
    rcases h1 : findManuallyCreated "id" ts with _ | t1
    · rcases h2 : anyIn "id" ts with _ | t2
      · rcases h3 : findManuallyCreated "en" ts with _ | t3
        · rcases h4 : anyIn "en" ts with _ | t4
          · rw [h1, h2, h3, h4] at h
            exact absurd h (by simp [firstSome])
          · rw [h1, h2, h3, h4] at h
            simp only [firstSome, Option.some_inj] at h
            simp only [selectTranscript, requestedLookup, preferredLoop, h1, h3,
              findTranscript_eq_anyIn h1, findTranscript_eq_anyIn h3, h2, h4]
            rw [h]
        · rw [h1, h2, h3] at h
          simp only [firstSome, Option.some_inj] at h
          simp only [selectTranscript, requestedLookup, preferredLoop, h1, h3,
            findTranscript_eq_anyIn h1, h2]
          rw [h]
      · rw [h1, h2] at h
        simp only [firstSome, Option.some_inj] at h
        simp only [selectTranscript, requestedLookup, preferredLoop, h1,
          findTranscript_eq_anyIn h1, h2]
        rw [h]
    · rw [h1] at h
      simp only [firstSome, Option.some_inj] at h
      simp only [selectTranscript, requestedLookup, preferredLoop, h1]
      rw [h]

/-- Witness for the selection-policy theorem: a single auto track in the
requested language is picked by the second attempt. -/
theorem transcript_selection_policy_witness :
    findManuallyCreated "id" [⟨"id", true⟩] = none ∧
      anyIn "id" [⟨"id", true⟩] = some ⟨"id", true⟩ ∧
      selectTranscript (some "id") [⟨"id", true⟩] = some ⟨"id", true⟩ :=
  ⟨by decide, by decide,
    transcript_selection_policy.2.1 "id" [⟨"id", true⟩] ⟨"id", true⟩
      (by decide) (by decide)⟩

/-! ## Fetch use case -/

/-- C6: with a valid URL, the fetch use case answers 404
(`NoTranscriptAvailable`) exactly when the provider reports transcripts
disabled or no transcript found — including an empty set of available
tracks — and answers 500 (`ProviderError`) with the provider's message
truncated to at most 120 characters on any other provider failure
(both a failing track listing and a failing cue fetch). -/
theorem fetch_error_taxonomy :
    ∀ (payload : FetchRequest) (oc : ProviderOutcome) (vid : List Char),
      extract_youtube_id payload.url = some vid →
      ((statusOf (fetch_transcript payload oc) = some 404) ↔
        (oc = .disabled ∨ oc = .notFound ∨ ∃ f, oc = .available [] f)) ∧
      (∀ msg, oc = .failure msg →
        fetch_transcript payload oc =
          .error ⟨500, "Gagal mengambil transkrip: ".toList ++ msg.take 120⟩ ∧
        (msg.take 120).length ≤ 120) ∧
      (∀ ts f tr msg, oc = .available ts f →
        selectTranscript payload.language ts = some tr → f tr = .error msg →
        fetch_transcript payload oc =
          .error ⟨500, "Gagal mengambil transkrip: ".toList ++ msg.take 120⟩) := by
  intro payload oc vid hvid
  cases oc with
  | disabled =>
    refine ⟨?_, ?_, ?_⟩
    · simp [fetch_transcript, hvid, statusOf]
    · intro msg h
      exact absurd h (by simp)
    · intro ts f tr msg h
      exact absurd h (by simp)
  | notFound =>
    refine ⟨?_, ?_, ?_⟩
    · simp [fetch_transcript, hvid, statusOf]
    · intro msg h
      exact absurd h (by simp)
    · intro ts f tr msg h
      exact absurd h (by simp)
  | failure msg =>
    refine ⟨?_, ?_, ?_⟩
    · simp [fetch_transcript, hvid, statusOf]
    · rintro msg' h
      rw [ProviderOutcome.failure.injEq] at h
      subst h
      refine ⟨by simp [fetch_transcript, hvid, providerErrorDetail], ?_⟩
      rw [List.length_take]
      omega
    · intro ts f tr msg' h
      exact absurd h (by simp)
  | available ts f =>
    refine ⟨?_, ?_, ?_⟩
    · rcases ts with _ | ⟨t₀, ts'⟩
      · constructor
        · intro _
          exact Or.inr (Or.inr ⟨f, rfl⟩)
        · intro _
          simp [fetch_transcript, hvid, selectTranscript_nil, statusOf]
      · rcases hsel : selectTranscript payload.language (t₀ :: ts') with _ | tr
        · have := @selectTranscript_isSome_of_ne_nil payload.language (t₀ :: ts') (by simp)
          rw [hsel] at this
          exact absurd this (by simp)
        · constructor
          · intro habs
            rcases hf : f tr with msg | raw
            · simp [fetch_transcript, hvid, hsel, hf, statusOf] at habs
            · simp [fetch_transcript, hvid, hsel, hf, statusOf] at habs
          · rintro (h | h | ⟨f', h⟩)
            · exact absurd h (by simp)
            · exact absurd h (by simp)
            · rw [ProviderOutcome.available.injEq] at h
              exact absurd h.1 (by simp)
    · intro msg h
      exact absurd h (by simp)
    · intro ts0 f0 tr msg h hsel hf
      rw [ProviderOutcome.available.injEq] at h
      obtain ⟨rfl, rfl⟩ := h
      simp [fetch_transcript, hvid, hsel, hf, providerErrorDetail]

/-- Witness for the fetch error taxonomy: a disabled-transcripts outcome
on a valid URL yields status 404. -/
theorem fetch_error_taxonomy_witness :
    extract_youtube_id "https://youtu.be/dQw4w9WgXcQ".toList
        = some "dQw4w9WgXcQ".toList ∧
      statusOf (fetch_transcript ⟨"https://youtu.be/dQw4w9WgXcQ".toList, none⟩
        ProviderOutcome.disabled) = some 404 :=
  ⟨by decide,
    (fetch_error_taxonomy ⟨"https://youtu.be/dQw4w9WgXcQ".toList, none⟩
      ProviderOutcome.disabled "dQw4w9WgXcQ".toList (by decide)).1.mpr (Or.inl rfl)⟩

/-! ## Clip creation -/

/-- C4: clip creation signals the 400 `Invalid` error exactly when
`end ≤ start` — so (5.0, 5.0) is rejected and (5.0, 5.1) accepted — and
on rejection the store is unchanged (no clip is persisted). -/
theorem clip_validation_rejects_nonpositive_range :
    ∀ (req : CreateClipRequest) (store : List Clip),
      (((create_clip req store).1 =
          .error ⟨400, "Rentang waktu tidak valid.".toList⟩) ↔ req.stop ≤ req.start) ∧
      (req.stop ≤ req.start → (create_clip req store).2 = store) ∧
      (∀ vid, (create_clip ⟨vid, 5, 5, none, none, none⟩ store).1 =
        .error ⟨400, "Rentang waktu tidak valid.".toList⟩) ∧
      (∀ vid, ∃ resp,
        (create_clip ⟨vid, 5, (51 : ℚ)/10, none, none, none⟩ store).1 = .ok resp) := by
  intro req store
  refine ⟨?_, ?_, ?_, ?_⟩
  · by_cases h : req.stop ≤ req.start
    · simp [create_clip, h]
    · simp [create_clip, h]
  · intro h
    simp [create_clip, h]
  · intro vid
    simp [create_clip]
  · intro vid
    refine ⟨⟨store.length, shareUrl vid 5⟩, ?_⟩
    have h : ¬ ((51 : ℚ)/10 ≤ 5) := by norm_num
    simp [create_clip, h]

/-- Witness for the validation theorem: an equal-endpoints request leaves
the store unchanged. -/
theorem clip_validation_rejects_nonpositive_range_witness :
    ((⟨"v".toList, 5, 5, none, none, none⟩ : CreateClipRequest).stop
        ≤ (⟨"v".toList, 5, 5, none, none, none⟩ : CreateClipRequest).start) ∧
      (create_clip ⟨"v".toList, 5, 5, none, none, none⟩ []).2 = [] :=
  ⟨by decide,
    (clip_validation_rejects_nonpositive_range
      ⟨"v".toList, 5, 5, none, none, none⟩ []).2.1 (by decide)⟩

/-- C5: every request that passes validation is persisted as a clip with
`export_status = "ready"` and
`share_url = "https://youtu.be/<video_id>?t=<integer-truncated start>"`;
with `start = 12` the share url ends in `"?t=12"`. -/
theorem clip_persisted_ready_with_share_url :
    (∀ (req : CreateClipRequest) (store : List Clip), req.start < req.stop →
      ∃ c : Clip, (create_clip req store).2 = store ++ [c] ∧
        c.export_status = "ready".toList ∧
        c.share_url = some ("https://youtu.be/".toList ++ req.video_id
          ++ "?t=".toList ++ (toString (pyTrunc req.start)).toList) ∧
        (create_clip req store).1 = .ok ⟨store.length,
          "https://youtu.be/".toList ++ req.video_id
            ++ "?t=".toList ++ (toString (pyTrunc req.start)).toList⟩) ∧
    (∀ (req : CreateClipRequest) (store : List Clip),
      req.start = 12 → req.start < req.stop →
      ∃ u, (create_clip req store).1 = .ok ⟨store.length, u⟩ ∧
        "?t=12".toList <:+ u) := by
  constructor
  · intro req store hlt
    have h : ¬ (req.stop ≤ req.start) := not_le.mpr hlt
    refine ⟨⟨req.video_id, req.user_id, req.start, req.stop, req.title,
      req.transcript_snippet, "ready".toList, some (shareUrl req.video_id req.start)⟩,
      ?_, rfl, ?_, ?_⟩
    · simp [create_clip, h]
    · simp [shareUrl]
    · simp [create_clip, h, shareUrl]
  · intro req store h12 hlt
    have h : ¬ (req.stop ≤ req.start) := not_le.mpr hlt
    refine ⟨shareUrl req.video_id req.start, by simp [create_clip, h], ?_⟩
    rw [shareUrl, h12]
    have ht : (toString (pyTrunc (12 : ℚ))).toList = ['1', '2'] := by
      rw [show pyTrunc (12 : ℚ) = 12 by norm_num [pyTrunc]]
      decide
    rw [ht, List.append_assoc, List.append_assoc]
    have hsplit : "?t=".toList ++ ['1', '2'] = "?t=12".toList := by decide
    calc "?t=12".toList <:+ "?t=".toList ++ ['1', '2'] := by rw [hsplit]
      _ <:+ req.video_id ++ ("?t=".toList ++ ['1', '2']) := List.suffix_append _ _
      _ <:+ "https://youtu.be/".toList
          ++ (req.video_id ++ ("?t=".toList ++ ['1', '2'])) := List.suffix_append _ _

/-- Witness for the share-url theorem at a concrete request. -/
theorem clip_persisted_ready_with_share_url_witness :
    ((12 : ℚ) = 12 ∧ (12 : ℚ) < 13) ∧
      ∃ u, (create_clip ⟨"dQw4w9WgXcQ".toList, 12, 13, none, none, none⟩ []).1
          = .ok ⟨(0 : Nat), u⟩ ∧ "?t=12".toList <:+ u :=
  ⟨⟨rfl, by decide⟩,
    clip_persisted_ready_with_share_url.2
      ⟨"dQw4w9WgXcQ".toList, 12, 13, none, none, none⟩ [] rfl (by decide)⟩

/-- C10: creation imposes no lower bound on `start` and no format check
on `video_id`: any request with `end > start` is accepted, and a request
with `start = -3.7` and the 1-character video id `"x"` is persisted with
a share url ending in `"?t=-3"` (truncation toward zero). -/
theorem clip_accepts_any_start_and_video_id :
    (∀ (req : CreateClipRequest) (store : List Clip), req.start < req.stop →
      ∃ resp, (create_clip req store).1 = .ok resp) ∧
    (∃ u, (create_clip ⟨"x".toList, (-37 : ℚ)/10, 0, none, none, none⟩ []).1
        = .ok ⟨(0 : Nat), u⟩ ∧ "?t=-3".toList <:+ u ∧
      (create_clip ⟨"x".toList, (-37 : ℚ)/10, 0, none, none, none⟩ []).2.length = 1) := by
  constructor
  · intro req store hlt
    have h : ¬ (req.stop ≤ req.start) := not_le.mpr hlt
    exact ⟨⟨store.length, shareUrl req.video_id req.start⟩, by simp [create_clip, h]⟩
  · have h : ¬ ((0 : ℚ) ≤ (-37 : ℚ)/10) := by norm_num
    refine ⟨shareUrl "x".toList ((-37 : ℚ)/10), by simp [create_clip, h], ?_, ?_⟩
    · rw [shareUrl, show pyTrunc ((-37 : ℚ)/10) = -3 by norm_num [pyTrunc]; decide]
      decide
    · simp [create_clip, h]

/-- Witness for the no-lower-bound theorem at a negative integral start. -/
theorem clip_accepts_any_start_and_video_id_witness :
    ((-1 : ℚ) < 0) ∧
      ∃ resp, (create_clip ⟨"x".toList, -1, 0, none, none, none⟩ []).1 = .ok resp :=
  ⟨by decide,
    clip_accepts_any_start_and_video_id.1
      ⟨"x".toList, -1, 0, none, none, none⟩ [] (by decide)⟩

end Potongin
